import Mathlib

/-
Shallow embedding of the breakout-failure detection engine of the
`breakout_failure` repository:

* `src/breakout/analyzer.py`, function `analyze_vrz_vwap` (lines 53-109):
  the VWAP column, the rolling high-low range column (stored as "ATR"),
  the upper/lower VRZ bands and the consecutive-bar crossing detector.
* `src/breakout/indicators.py`: `compute_atr`, `find_local_maxima`,
  `find_local_minima`.

Prices, volumes and band values are rationals.  A pandas float cell that
holds NaN is modelled as `Option.none`; in particular the unguarded
division `cumsum / cumsum` of analyzer.py line 72 produces NaN exactly
when the cumulative volume is zero (for the non-negative volumes of the
data model the numerator is then zero as well, and pandas gives 0/0 =
NaN), which the embedding renders as `none`.  Python comparisons against
NaN are `False`; the Boolean comparators below reproduce that.
-/

/-- one OHLCV row of the dataframe; `date` is the bar timestamp. -/
structure Bar where
  date : ℤ
  op : ℚ
  high : ℚ
  low : ℚ
  close : ℚ
  volume : ℚ
deriving DecidableEq, Repr

instance : Inhabited Bar := ⟨⟨0, 0, 0, 0, 0, 0⟩⟩

/-- positional row access, `df.iloc[i]`; every loop of the source only
reads rows that exist, so the default row is never observable. -/
def barAt (s : List Bar) (i : ℕ) : Bar := s.getD i default

/-- typical price `(High + Low + Close) / 3` of analyzer.py line 72. -/
def typical (b : Bar) : ℚ := (b.high + b.low + b.close) / 3

/-- cumulative sum of `Volume * (High+Low+Close)/3` up to row `i`
(the numerator of analyzer.py line 72). -/
def cumPV (s : List Bar) (i : ℕ) : ℚ :=
  ∑ j ∈ Finset.range (i + 1), (barAt s j).volume * typical (barAt s j)

/-- cumulative sum of `Volume` up to row `i`
(the denominator of analyzer.py line 72). -/
def cumVol (s : List Bar) (i : ℕ) : ℚ :=
  ∑ j ∈ Finset.range (i + 1), (barAt s j).volume

/-- the `VWAP` column of analyzer.py line 72; `none` is the NaN the
unguarded pandas division produces at zero cumulative volume. -/
def vwap (s : List Bar) (i : ℕ) : Option ℚ :=
  if cumVol s i = 0 then none else some (cumPV s i / cumVol s i)

/-- pandas `series.rolling(window=w, min_periods=1).mean()` at row `i`: the
mean over the trailing `min w (i+1)` values (warm start before the
window fills).  Natural subtraction clips the window start at 0. -/
def rollingMean (f : ℕ → ℚ) (w i : ℕ) : ℚ :=
  (∑ j ∈ Finset.Ico (i + 1 - w) (i + 1), f j) / (((i + 1) - (i + 1 - w) : ℕ) : ℚ)

/-- the `ATR` column of analyzer.py line 75: rolling mean of
`High - Low` (the rolling range average of the band builder). -/
def rangeAvg (s : List Bar) (w i : ℕ) : ℚ :=
  rollingMean (fun j => (barAt s j).high - (barAt s j).low) w i

/-- the `upper_band` column of analyzer.py line 78. -/
def upperBand (s : List Bar) (k : ℚ) (w i : ℕ) : Option ℚ :=
  (vwap s i).map (fun v => v + k * rangeAvg s w i)

/-- the `lower_band` column of analyzer.py line 79. -/
def lowerBand (s : List Bar) (k : ℚ) (w i : ℕ) : Option ℚ :=
  (vwap s i).map (fun v => v - k * rangeAvg s w i)

/-- one failure record appended by analyzer.py lines 89-103. -/
structure FailureEvent where
  company : String
  ticker : String
  location : String
  failure_time : ℤ
deriving DecidableEq, Repr

/-- Python `x > y` where `y` may be NaN (`none`): false on NaN. -/
def gtO (x : ℚ) (y : Option ℚ) : Bool :=
  match y with
  | none => false
  | some q => decide (q < x)

/-- Python `x < y` where `y` may be NaN (`none`): false on NaN. -/
def ltO (x : ℚ) (y : Option ℚ) : Bool :=
  match y with
  | none => false
  | some q => decide (x < q)

/-- loop body of analyzer.py lines 82-103 at index `i ≥ 1`: the
upper-band check, `elif` the lower-band check. -/
def bandStep (company ticker : String) (s : List Bar) (k : ℚ) (w : ℕ) (i : ℕ) :
    Option FailureEvent :=
  if gtO (barAt s (i - 1)).close (upperBand s k w (i - 1)) &&
      ltO (barAt s i).close (upperBand s k w i) then
    some ⟨company, ticker, "VRZ High Failure", (barAt s i).date⟩
  else if ltO (barAt s (i - 1)).close (lowerBand s k w (i - 1)) &&
      gtO (barAt s i).close (lowerBand s k w i) then
    some ⟨company, ticker, "VRZ Low Failure", (barAt s i).date⟩
  else none

/-- the full detection loop `for i in range(1, len(df))` of
analyzer.py lines 82-105, returning the `failures` list. -/
def detectBandFailures (company ticker : String) (s : List Bar) (k : ℚ) (w : ℕ) :
    List FailureEvent :=
  (List.range' 1 (s.length - 1)).filterMap (bandStep company ticker s k w)

/-- true range of indicators.py lines 10-13: the row-wise max of
`High-Low`, `|High-prev Close|`, `|Low-prev Close|`; at row 0 the two
shifted columns are NaN and pandas `max(axis=1)` skips them, leaving
`High-Low`. -/
def trueRange (s : List Bar) (i : ℕ) : ℚ :=
  if i = 0 then (barAt s 0).high - (barAt s 0).low
  else
    max ((barAt s i).high - (barAt s i).low)
      (max |(barAt s i).high - (barAt s (i - 1)).close|
        |(barAt s i).low - (barAt s (i - 1)).close|)

/-- the function `compute_atr` of indicators.py lines 5-15:
`tr.rolling(period, min_periods=1).mean()`. -/
def compute_atr (s : List Bar) (period : ℕ) (i : ℕ) : ℚ :=
  rollingMean (trueRange s) period i

/-- the function `find_local_maxima` of indicators.py lines 17-26: indices `i` in
`range(window, n - window)` whose value is `≥` every other value in the
closed window `[i-window, i+window]`. -/
def find_local_maxima (vals : List ℚ) (window : ℕ) : List ℕ :=
  (List.range' window (vals.length - 2 * window)).filter (fun i =>
    (List.range (2 * window + 1)).all (fun t =>
      (i - window + t == i) || decide (vals.getD (i - window + t) 0 ≤ vals.getD i 0)))

/-- the function `find_local_minima` of indicators.py lines 28-37. -/
def find_local_minima (vals : List ℚ) (window : ℕ) : List ℕ :=
  (List.range' window (vals.length - 2 * window)).filter (fun i =>
    (List.range (2 * window + 1)).all (fun t =>
      (i - window + t == i) || decide (vals.getD i 0 ≤ vals.getD (i - window + t) 0)))

/-- VWAP as a plain rational (the value inside `vwap` when the
cumulative volume is nonzero). -/
def vwapVal (s : List Bar) (i : ℕ) : ℚ := cumPV s i / cumVol s i

/-- upper band as a plain rational, `vwap + k * range_avg`, as the spec
words it. -/
def upperVal (s : List Bar) (k : ℚ) (w i : ℕ) : ℚ := vwapVal s i + k * rangeAvg s w i

/-- lower band as a plain rational, `vwap - k * range_avg`, as the spec
words it. -/
def lowerVal (s : List Bar) (k : ℚ) (w i : ℕ) : ℚ := vwapVal s i - k * rangeAvg s w i

/-- the spec's upper-band failure pattern at index `i`:
`close[i-1] > upper[i-1]` and `close[i] < upper[i]`. -/
def upperFailCond (s : List Bar) (k : ℚ) (w i : ℕ) : Prop :=
  upperVal s k w (i - 1) < (barAt s (i - 1)).close ∧ (barAt s i).close < upperVal s k w i

/-- the spec's lower-band failure pattern at index `i`:
`close[i-1] < lower[i-1]` and `close[i] > lower[i]`. -/
def lowerFailCond (s : List Bar) (k : ℚ) (w i : ℕ) : Prop :=
  (barAt s (i - 1)).close < lowerVal s k w (i - 1) ∧ lowerVal s k w i < (barAt s i).close

instance (s : List Bar) (k : ℚ) (w i : ℕ) : Decidable (upperFailCond s k w i) :=
  inferInstanceAs (Decidable (_ ∧ _))

instance (s : List Bar) (k : ℚ) (w i : ℕ) : Decidable (lowerFailCond s k w i) :=
  inferInstanceAs (Decidable (_ ∧ _))

/-- Modelled from the spec (section 4.6): the band-policy event at
index `i`, emitting the upper-band event on the upper pattern, the
lower-band event on the lower pattern, nothing otherwise. -/
def bandSpecStep (company ticker : String) (s : List Bar) (k : ℚ) (w : ℕ) (i : ℕ) :
    Option FailureEvent :=
  if upperFailCond s k w i then
    some ⟨company, ticker, "VRZ High Failure", (barAt s i).date⟩
  else if lowerFailCond s k w i then
    some ⟨company, ticker, "VRZ Low Failure", (barAt s i).date⟩
  else none

/-- Modelled from the spec (section 4.6): the single forward pass
`i = 1 .. n-1` of the band policy. -/
def bandFailuresSpec (company ticker : String) (s : List Bar) (k : ℚ) (w : ℕ) :
    List FailureEvent :=
  (List.range' 1 (s.length - 1)).filterMap (bandSpecStep company ticker s k w)

/-- rows addressed inside the loops exist in the series. -/
lemma barAt_mem {s : List Bar} {i : ℕ} (h : i < s.length) : barAt s i ∈ s := by
  rw [barAt, List.getD_eq_get s default h]
  exact List.get_mem s i h

/-- sample two-bar series used by several witnesses: the close of bar 0
sits above the upper band and the close of bar 1 falls back below it. -/
def sampleSeries : List Bar := [⟨0, 0, 10, 0, 100, 1⟩, ⟨1, 0, 10, 0, 1, 1⟩]

/-- C5: the detector owns no mutable state: its output is a function of
the series and parameters alone, so two runs on equal inputs return
identical event sequences. -/
theorem detector_deterministic (c t : String) (s₁ s₂ : List Bar) (k₁ k₂ : ℚ) (w₁ w₂ : ℕ)
    (hs : s₁ = s₂) (hk : k₁ = k₂) (hw : w₁ = w₂) :
    detectBandFailures c t s₁ k₁ w₁ = detectBandFailures c t s₂ k₂ w₂ := by
  rw [hs, hk, hw]

/-- witness for `detector_deterministic` at a concrete series. -/
theorem detector_deterministic_witness :
    detectBandFailures "X" "Y" sampleSeries 2 20 = detectBandFailures "X" "Y" sampleSeries 2 20 :=
  detector_deterministic "X" "Y" sampleSeries sampleSeries 2 2 20 20 rfl rfl rfl

/-- all-zero-volume series used by the C6 witness. -/
def zeroVolSeries : List Bar := [⟨0, 1, 2, 1, 2, 0⟩, ⟨1, 1, 5, 1, 5, 0⟩, ⟨2, 1, 1, 1, 1, 0⟩]

/-- C6: a series with zero volume everywhere has NaN VWAP at every
index, the band comparisons against NaN are all false, and the detector
returns the empty event list (no error). -/
theorem zero_volume_no_events (c t : String) (s : List Bar) (k : ℚ) (w : ℕ)
    (hz : ∀ b ∈ s, b.volume = 0) :
    (∀ i, vwap s i = none) ∧ detectBandFailures c t s k w = [] := by
  have hvol : ∀ j, (barAt s j).volume = 0 := by
    intro j
    by_cases hj : j < s.length
    · exact hz _ (barAt_mem hj)
    · rw [barAt, List.getD_eq_default _ _ (le_of_not_lt hj)]
      rfl
  have hcv : ∀ i, cumVol s i = 0 := fun i => Finset.sum_eq_zero fun j _ => hvol j
  have hvw : ∀ i, vwap s i = none := fun i => by rw [vwap, if_pos (hcv i)]
  refine ⟨hvw, ?_⟩
  rw [detectBandFailures, List.filterMap_eq_nil]
  intro i _
  simp [bandStep, upperBand, lowerBand, hvw, gtO, ltO]

/-- witness for `zero_volume_no_events`. -/
theorem zero_volume_no_events_witness :
    (∀ b ∈ zeroVolSeries, b.volume = 0) ∧
      ((∀ i, vwap zeroVolSeries i = none) ∧
        detectBandFailures "X" "Y" zeroVolSeries 2 20 = []) :=
  ⟨by decide, zero_volume_no_events "X" "Y" zeroVolSeries 2 20 (by decide)⟩

/-- C3: with the non-negative volumes of the data model, VWAP at index
`i` is the cumulative volume-weighted typical price whenever the
cumulative volume is strictly positive, and is NaN (undefined) whenever
it is not. -/
theorem vwap_definition_guard (s : List Bar) (i : ℕ)
    (hnn : ∀ b ∈ s, 0 ≤ b.volume) (hi : i < s.length) :
    (0 < cumVol s i →
      vwap s i = some ((∑ j ∈ Finset.range (i + 1),
          (barAt s j).volume * (((barAt s j).high + (barAt s j).low + (barAt s j).close) / 3)) /
        ∑ j ∈ Finset.range (i + 1), (barAt s j).volume)) ∧
    (¬ 0 < cumVol s i → vwap s i = none) := by
  constructor
  · intro h
    rw [vwap, if_neg (ne_of_gt h)]
    rfl
  · intro h
    have h0 : cumVol s i = 0 :=
      le_antisymm (not_lt.mp h)
        (Finset.sum_nonneg fun j hj =>
          hnn _ (barAt_mem (lt_of_lt_of_le (Finset.mem_range.mp hj) hi)))
    rw [vwap, if_pos h0]

/-- witness for `vwap_definition_guard`. -/
theorem vwap_definition_guard_witness :
    ((∀ b ∈ sampleSeries, 0 ≤ b.volume) ∧ 1 < sampleSeries.length) ∧
      ((0 < cumVol sampleSeries 1 →
        vwap sampleSeries 1 = some ((∑ j ∈ Finset.range 2,
            (barAt sampleSeries j).volume *
              (((barAt sampleSeries j).high + (barAt sampleSeries j).low +
                (barAt sampleSeries j).close) / 3)) /
          ∑ j ∈ Finset.range 2, (barAt sampleSeries j).volume)) ∧
      (¬ 0 < cumVol sampleSeries 1 → vwap sampleSeries 1 = none)) :=
  ⟨⟨by decide, by decide⟩, vwap_definition_guard sampleSeries 1 (by decide) (by decide)⟩

/-- C2: the rolling range average is the trailing simple moving average
of `high - low` with the warm-start policy (mean over the `i + 1`
available bars before the window fills), and the bands are
`vwap ± k * range_avg` exactly where VWAP is defined. -/
theorem band_construction (s : List Bar) (k : ℚ) (w i : ℕ) (hw : 1 ≤ w) (hi : i < s.length) :
    (w ≤ i + 1 → rangeAvg s w i =
      (∑ j ∈ Finset.Ico (i + 1 - w) (i + 1), ((barAt s j).high - (barAt s j).low)) / (w : ℚ)) ∧
    (i + 1 < w → rangeAvg s w i =
      (∑ j ∈ Finset.range (i + 1), ((barAt s j).high - (barAt s j).low)) / ((i + 1 : ℕ) : ℚ)) ∧
    (∀ v, vwap s i = some v →
      upperBand s k w i = some (v + k * rangeAvg s w i) ∧
      lowerBand s k w i = some (v - k * rangeAvg s w i)) ∧
    (vwap s i = none → upperBand s k w i = none ∧ lowerBand s k w i = none) := by
  refine ⟨?_, ?_, ?_, ?_⟩
  · intro h
    rw [rangeAvg, rollingMean]
    congr 1
    exact_mod_cast congrArg (Nat.cast (R := ℚ)) (by omega : (i + 1) - (i + 1 - w) = w)
  · intro h
    rw [rangeAvg, rollingMean]
    have h1 : i + 1 - w = 0 := by omega
    rw [h1, ← Finset.range_eq_Ico, Nat.sub_zero]
  · intro v hv
    rw [upperBand, lowerBand, hv]
    exact ⟨rfl, rfl⟩
  · intro hv
    rw [upperBand, lowerBand, hv]
    exact ⟨rfl, rfl⟩

/-- witness for `band_construction` with a partially filled window
(`i = 1 < w = 20`) on the sample series. -/
theorem band_construction_witness :
    (1 ≤ 20 ∧ 1 < sampleSeries.length) ∧
      ((20 ≤ 1 + 1 → rangeAvg sampleSeries 20 1 =
        (∑ j ∈ Finset.Ico (1 + 1 - 20) (1 + 1),
          ((barAt sampleSeries j).high - (barAt sampleSeries j).low)) / (20 : ℚ)) ∧
      (1 + 1 < 20 → rangeAvg sampleSeries 20 1 =
        (∑ j ∈ Finset.range (1 + 1),
          ((barAt sampleSeries j).high - (barAt sampleSeries j).low)) / ((1 + 1 : ℕ) : ℚ)) ∧
      (∀ v, vwap sampleSeries 1 = some v →
        upperBand sampleSeries 2 20 1 = some (v + 2 * rangeAvg sampleSeries 20 1) ∧
        lowerBand sampleSeries 2 20 1 = some (v - 2 * rangeAvg sampleSeries 20 1)) ∧
      (vwap sampleSeries 1 = none →
        upperBand sampleSeries 2 20 1 = none ∧ lowerBand sampleSeries 2 20 1 = none)) :=
  ⟨⟨by decide, by decide⟩, band_construction sampleSeries 2 20 1 (by decide) (by decide)⟩

/-- C7: true range at index 0 is `high - low` (no prior close, the
shifted columns are NaN and pandas skips them); at `i > 0` it is the
three-way max; `compute_atr` is its trailing simple moving average with
the warm-start (expanding-window) policy below `period` bars. -/
theorem true_range_atr_definition (s : List Bar) (period i : ℕ)
    (hp : 1 ≤ period) (hi : i < s.length) :
    trueRange s 0 = (barAt s 0).high - (barAt s 0).low ∧
    (∀ j, 0 < j → trueRange s j =
      max ((barAt s j).high - (barAt s j).low)
        (max |(barAt s j).high - (barAt s (j - 1)).close|
          |(barAt s j).low - (barAt s (j - 1)).close|)) ∧
    (period ≤ i + 1 → compute_atr s period i =
      (∑ j ∈ Finset.Ico (i + 1 - period) (i + 1), trueRange s j) / (period : ℚ)) ∧
    (i + 1 < period → compute_atr s period i =
      (∑ j ∈ Finset.range (i + 1), trueRange s j) / ((i + 1 : ℕ) : ℚ)) := by
  refine ⟨by rw [trueRange, if_pos rfl], fun j hj => by rw [trueRange, if_neg (by omega)], ?_, ?_⟩
  · intro h
    rw [compute_atr, rollingMean]
    congr 1
    exact_mod_cast congrArg (Nat.cast (R := ℚ)) (by omega : (i + 1) - (i + 1 - period) = period)
  · intro h
    rw [compute_atr, rollingMean]
    have h1 : i + 1 - period = 0 := by omega
    rw [h1, ← Finset.range_eq_Ico, Nat.sub_zero]

/-- witness for `true_range_atr_definition` on the sample series with
`period = 14`, `i = 1`. -/
theorem true_range_atr_definition_witness :
    (1 ≤ 14 ∧ 1 < sampleSeries.length) ∧
      (trueRange sampleSeries 0 = (barAt sampleSeries 0).high - (barAt sampleSeries 0).low ∧
      (∀ j, 0 < j → trueRange sampleSeries j =
        max ((barAt sampleSeries j).high - (barAt sampleSeries j).low)
          (max |(barAt sampleSeries j).high - (barAt sampleSeries (j - 1)).close|
            |(barAt sampleSeries j).low - (barAt sampleSeries (j - 1)).close|)) ∧
      (14 ≤ 1 + 1 → compute_atr sampleSeries 14 1 =
        (∑ j ∈ Finset.Ico (1 + 1 - 14) (1 + 1), trueRange sampleSeries j) / (14 : ℚ)) ∧
      (1 + 1 < 14 → compute_atr sampleSeries 14 1 =
        (∑ j ∈ Finset.range (1 + 1), trueRange sampleSeries j) / ((1 + 1 : ℕ) : ℚ))) :=
  ⟨⟨by decide, by decide⟩, true_range_atr_definition sampleSeries 14 1 (by decide) (by decide)⟩

/-- membership characterisation of `find_local_maxima`: the scanned
range is `window ≤ i` and `i + window < n` (that is, `[window, n - window)`,
the last admissible index being `n - 1 - window` inclusive), and the
value must tie-or-beat every other value of the closed window. -/
lemma mem_find_local_maxima (vals : List ℚ) (w i : ℕ) :
    i ∈ find_local_maxima vals w ↔
      w ≤ i ∧ i + w < vals.length ∧
        ∀ j ∈ Finset.Icc (i - w) (i + w), j ≠ i → vals.getD j 0 ≤ vals.getD i 0 := by
  rw [find_local_maxima, List.mem_filter, List.mem_range'_1, List.all_eq_true]
  constructor
  · rintro ⟨⟨h1, h2⟩, h3⟩
    refine ⟨h1, by omega, ?_⟩
    intro j hj hne
    rcases Finset.mem_Icc.mp hj with ⟨hj1, hj2⟩
    have ht := h3 (j - (i - w)) (List.mem_range.mpr (by omega))
    rw [Bool.or_eq_true, beq_iff_eq, decide_eq_true_iff] at ht
    have hrw : i - w + (j - (i - w)) = j := by omega
    rw [hrw] at ht
    exact ht.resolve_left hne
  · rintro ⟨h1, h2, h3⟩
    refine ⟨⟨h1, by omega⟩, ?_⟩
    intro t ht
    rw [List.mem_range] at ht
    rw [Bool.or_eq_true, beq_iff_eq, decide_eq_true_iff]
    by_cases he : i - w + t = i
    · exact Or.inl he
    · exact Or.inr (h3 (i - w + t) (Finset.mem_Icc.mpr (by omega)) he)

/-- membership characterisation of `find_local_minima`. -/
lemma mem_find_local_minima (vals : List ℚ) (w i : ℕ) :
    i ∈ find_local_minima vals w ↔
      w ≤ i ∧ i + w < vals.length ∧
        ∀ j ∈ Finset.Icc (i - w) (i + w), j ≠ i → vals.getD i 0 ≤ vals.getD j 0 := by
  rw [find_local_minima, List.mem_filter, List.mem_range'_1, List.all_eq_true]
  constructor
  · rintro ⟨⟨h1, h2⟩, h3⟩
    refine ⟨h1, by omega, ?_⟩
    intro j hj hne
    rcases Finset.mem_Icc.mp hj with ⟨hj1, hj2⟩
    have ht := h3 (j - (i - w)) (List.mem_range.mpr (by omega))
    rw [Bool.or_eq_true, beq_iff_eq, decide_eq_true_iff] at ht
    have hrw : i - w + (j - (i - w)) = j := by omega
    rw [hrw] at ht
    exact ht.resolve_left hne
  · rintro ⟨h1, h2, h3⟩
    refine ⟨⟨h1, by omega⟩, ?_⟩
    intro t ht
    rw [List.mem_range] at ht
    rw [Bool.or_eq_true, beq_iff_eq, decide_eq_true_iff]
    by_cases he : i - w + t = i
    · exact Or.inl he
    · exact Or.inr (h3 (i - w + t) (Finset.mem_Icc.mpr (by omega)) he)

/-- value of a replicate list under the positional `getD` access. -/
lemma getD_replicate_of_lt (q : ℚ) (n j : ℕ) (hj : j < n) :
    (List.replicate n q).getD j 0 = q := by
  simp [List.getD_eq_getElem?_getD, List.getElem?_replicate, hj]

/-- C4 counterexample: on a flat 11-value series with `window = 5` the
scanner returns index 5, yet 5 does not lie in the claimed scan range
`[window, n - 1 - window)` — the code scans `range(window, n - window)`,
whose last admissible index `n - 1 - window` the claimed half-open
interval excludes. -/
theorem local_extrema_claimed_range_fails :
    5 ∈ find_local_maxima (List.replicate 11 (100 : ℚ)) 5 ∧
      ¬ 5 ∈ Finset.Ico 5 (11 - 1 - 5) := by
  decide

/-- C4 amended: index `i` qualifies iff `window ≤ i` and
`i + window < n` (the half-open scan range is `[window, n - window)`,
so the last admissible index is `n - 1 - window` inclusive), with the
inclusive tie rule; the returned indices are strictly ascending; and a
flat segment of length `2 * window + 1` yields the centre index under
both scanners. -/
theorem local_extrema_characterization (vals : List ℚ) (w : ℕ) :
    (∀ i, i ∈ find_local_maxima vals w ↔
      w ≤ i ∧ i + w < vals.length ∧
        ∀ j ∈ Finset.Icc (i - w) (i + w), j ≠ i → vals.getD j 0 ≤ vals.getD i 0) ∧
    (∀ i, i ∈ find_local_minima vals w ↔
      w ≤ i ∧ i + w < vals.length ∧
        ∀ j ∈ Finset.Icc (i - w) (i + w), j ≠ i → vals.getD i 0 ≤ vals.getD j 0) ∧
    (find_local_maxima vals w).Pairwise (· < ·) ∧
    (find_local_minima vals w).Pairwise (· < ·) ∧
    (∀ q : ℚ, w ∈ find_local_maxima (List.replicate (2 * w + 1) q) w ∧
      w ∈ find_local_minima (List.replicate (2 * w + 1) q) w) := by
  refine ⟨mem_find_local_maxima vals w, mem_find_local_minima vals w,
    List.Pairwise.filter _ (List.pairwise_lt_range' _ _), 
    List.Pairwise.filter _ (List.pairwise_lt_range' _ _), ?_⟩
  intro q
  constructor
  · rw [mem_find_local_maxima]
    refine ⟨le_refl w, by rw [List.length_replicate]; omega, ?_⟩
    intro j hj hne
    rcases Finset.mem_Icc.mp hj with ⟨_, hj2⟩
    rw [getD_replicate_of_lt q _ j (by omega), getD_replicate_of_lt q _ w (by omega)]
  · rw [mem_find_local_minima]
    refine ⟨le_refl w, by rw [List.length_replicate]; omega, ?_⟩
    intro j hj hne
    rcases Finset.mem_Icc.mp hj with ⟨_, hj2⟩
    rw [getD_replicate_of_lt q _ j (by omega), getD_replicate_of_lt q _ w (by omega)]

/-- witness for `local_extrema_characterization`: the tie rule admits
the centre of a flat 11-value series at `window = 5`. -/
theorem local_extrema_characterization_witness :
    5 ∈ find_local_maxima (List.replicate (2 * 5 + 1) (7 : ℚ)) 5 ∧
      5 ∈ find_local_minima (List.replicate (2 * 5 + 1) (7 : ℚ)) 5 :=
  (local_extrema_characterization (List.replicate (2 * 5 + 1) (7 : ℚ)) 5).2.2.2.2 7

/-- any event the loop body emits at index `i` carries `failure_time =
timestamp[i]`. -/
lemma bandStep_failure_time {c t : String} {s : List Bar} {k : ℚ} {w : ℕ} {i : ℕ}
    {e : FailureEvent} (h : bandStep c t s k w i = some e) :
    e.failure_time = (barAt s i).date := by
  rw [bandStep] at h
  split at h
  · cases h
    rfl
  · split at h
    · cases h
      rfl
    · cases h

/-- C10: with the strictly increasing timestamps of the data model, the
loop emits at most one event per index (the two branches are exclusive
arms of one `if`/`elif`), so the event sequence has strictly increasing
`failure_time` values, and there are at most `n - 1` events. -/
theorem band_events_ordered (c t : String) (s : List Bar) (k : ℚ) (w : ℕ)
    (hts : ∀ j, j < s.length → ∀ i, i < j → (barAt s i).date < (barAt s j).date) :
    (detectBandFailures c t s k w).Pairwise (fun a b => a.failure_time < b.failure_time) ∧
    (detectBandFailures c t s k w).length ≤ s.length - 1 := by
  constructor
  · rw [detectBandFailures, List.pairwise_filterMap]
    refine List.Pairwise.imp_of_mem ?_ (List.pairwise_lt_range' 1 (s.length - 1))
    intro a b ha hb hab e1 he1 e2 he2
    rw [Option.mem_def] at he1 he2
    rw [bandStep_failure_time he1, bandStep_failure_time he2]
    rcases List.mem_range'_1.mp ha with ⟨ha1, ha2⟩
    rcases List.mem_range'_1.mp hb with ⟨hb1, hb2⟩
    exact hts b (by omega) a hab
  · rw [detectBandFailures]
    calc ((List.range' 1 (s.length - 1)).filterMap (bandStep c t s k w)).length
        ≤ (List.range' 1 (s.length - 1)).length := List.length_filterMap_le _ _
      _ = s.length - 1 := List.length_range' _ _ _

/-- witness for `band_events_ordered` on the sample series. -/
theorem band_events_ordered_witness :
    (∀ j, j < sampleSeries.length → ∀ i, i < j →
      (barAt sampleSeries i).date < (barAt sampleSeries j).date) ∧
      ((detectBandFailures "X" "Y" sampleSeries 2 20).Pairwise
        (fun a b => a.failure_time < b.failure_time) ∧
      (detectBandFailures "X" "Y" sampleSeries 2 20).length ≤ sampleSeries.length - 1) :=
  ⟨by decide, band_events_ordered "X" "Y" sampleSeries 2 20 (by decide)⟩

/-- with `high ≥ low` on every bar the rolling range average is
non-negative. -/
lemma rangeAvg_nonneg {s : List Bar} {w i : ℕ} (hl : ∀ b ∈ s, b.low ≤ b.high)
    (hi : i < s.length) : 0 ≤ rangeAvg s w i := by
  rw [rangeAvg, rollingMean]
  apply div_nonneg
  · apply Finset.sum_nonneg
    intro j hj
    rcases Finset.mem_Ico.mp hj with ⟨_, hj2⟩
    have hjs : j < s.length := by omega
    have := hl _ (barAt_mem hjs)
    linarith
  · exact Nat.cast_nonneg _

/-- C1: on a data-model series (`low ≤ high`, `k ≥ 0`, positive
cumulative volume everywhere so the bands are defined), the detection
loop returns exactly the spec's event list — one upper-band event with
`failure_time = timestamp[i]` whenever `close[i-1] > upper[i-1]` and
`close[i] < upper[i]`, one lower-band event on the symmetric lower
pattern, nothing otherwise — and the two patterns are mutually
exclusive at every index, so the `elif` never suppresses a lower-band
event. -/
theorem band_policy_detection (c t : String) (s : List Bar) (k : ℚ) (w : ℕ)
    (hl : ∀ b ∈ s, b.low ≤ b.high) (hk : 0 ≤ k) (hw : 1 ≤ w)
    (hv : ∀ i, i < s.length → 0 < cumVol s i) :
    detectBandFailures c t s k w = bandFailuresSpec c t s k w ∧
    ∀ i, i < s.length → ¬ (upperFailCond s k w i ∧ lowerFailCond s k w i) := by
  have hexcl : ∀ i, i < s.length → ¬ (upperFailCond s k w i ∧ lowerFailCond s k w i) := by
    rintro i hi ⟨⟨hu1, _⟩, ⟨hl1, _⟩⟩
    have hra : 0 ≤ rangeAvg s w (i - 1) := rangeAvg_nonneg hl (by omega)
    have hle : lowerVal s k w (i - 1) ≤ upperVal s k w (i - 1) := by
      rw [lowerVal, upperVal]
      have := mul_nonneg hk hra
      linarith
    linarith
  refine ⟨?_, hexcl⟩
  rw [detectBandFailures, bandFailuresSpec]
  apply List.filterMap_congr
  intro i hi
  rcases List.mem_range'_1.mp hi with ⟨h1, h2⟩
  have hilen : i < s.length := by omega
  have hprev : i - 1 < s.length := by omega
  have e1 : vwap s i = some (vwapVal s i) := by
    rw [vwap, if_neg (ne_of_gt (hv i hilen))]
    rfl
  have e2 : vwap s (i - 1) = some (vwapVal s (i - 1)) := by
    rw [vwap, if_neg (ne_of_gt (hv (i - 1) hprev))]
    rfl
  rw [bandStep, bandSpecStep, upperBand, upperBand, lowerBand, lowerBand, e1, e2]
  simp only [Option.map_some', gtO, ltO, upperFailCond, lowerFailCond, upperVal, lowerVal,
    Bool.and_eq_true, decide_eq_true_eq]

/-- witness for `band_policy_detection` on the sample series (which
produces one upper-band event). -/
theorem band_policy_detection_witness :
    ((∀ b ∈ sampleSeries, b.low ≤ b.high) ∧ (0 : ℚ) ≤ 2 ∧ 1 ≤ 20 ∧
      (∀ i, i < sampleSeries.length → 0 < cumVol sampleSeries i)) ∧
      (detectBandFailures "X" "Y" sampleSeries 2 20 =
        bandFailuresSpec "X" "Y" sampleSeries 2 20 ∧
      ∀ i, i < sampleSeries.length →
        ¬ (upperFailCond sampleSeries 2 20 i ∧ lowerFailCond sampleSeries 2 20 i)) :=
  have hv : ∀ i, i < sampleSeries.length → 0 < cumVol sampleSeries i := by
    intro i hi
    simp only [sampleSeries, List.length_cons, List.length_nil] at hi
    interval_cases i <;>
      norm_num [cumVol, Finset.sum_range_succ, Finset.sum_range_zero, barAt, sampleSeries]
  ⟨⟨by decide, by decide, by decide, hv⟩,
    band_policy_detection "X" "Y" sampleSeries 2 20 (by decide) (by decide) (by decide) hv⟩

/-- malformed two-bar series: negative volume on both bars and
timestamps out of order (the second timestamp, `t1`, is intended below
the first, `t0`). -/
def badSeries (t0 t1 : ℤ) : List Bar :=
  [⟨t0, 11, 12, 10, 119 / 10, -1⟩, ⟨t1, 5, 12, 5, 5, -1⟩]

/-- a filterMap over the singleton index list of a two-bar series. -/
lemma filterMap_two {α : Type} (f : ℕ → Option α) : List.filterMap f [1] = (f 1).toList := by
  cases h : f 1 <;> simp [List.filterMap_cons, h]

/-- upper band of the malformed series at index 0. -/
lemma badSeries_upper0 (t0 t1 : ℤ) :
    upperBand (badSeries t0 t1) (1 / 10) 2 0 = some (23 / 2) := by
  norm_num [upperBand, vwap, cumVol, cumPV, typical, rangeAvg, rollingMean, barAt, badSeries,
    Finset.sum_range_succ, Finset.sum_range_zero, ← Finset.range_eq_Ico]

/-- upper band of the malformed series at index 1. -/
lemma badSeries_upper1 (t0 t1 : ℤ) :
    upperBand (badSeries t0 t1) (1 / 10) 2 1 = some (293 / 30) := by
  norm_num [upperBand, vwap, cumVol, cumPV, typical, rangeAvg, rollingMean, barAt, badSeries,
    Finset.sum_range_succ, Finset.sum_range_zero, ← Finset.range_eq_Ico]

/-- on any malformed `badSeries` the band computation runs through and
emits an upper-band event at the second bar. -/
lemma badSeries_detect (t0 t1 : ℤ) :
    detectBandFailures "X" "Y" (badSeries t0 t1) (1 / 10) 2 =
      [⟨"X", "Y", "VRZ High Failure", t1⟩] := by
  have hlen : (badSeries t0 t1).length - 1 = 1 := rfl
  rw [detectBandFailures, hlen, show List.range' 1 1 = [1] from rfl, filterMap_two, bandStep,
    badSeries_upper0, badSeries_upper1]
  norm_num [gtO, ltO, barAt, badSeries]

/-- C9 counterexample: on a series with negative volume on every bar
and decreasing timestamps the analysis does not reject the input — it
runs the band computation and emits an event from it. -/
theorem malformed_input_not_rejected :
    ((barAt (badSeries 5 3) 0).volume < 0 ∧
      (barAt (badSeries 5 3) 1).date < (barAt (badSeries 5 3) 0).date) ∧
    detectBandFailures "X" "Y" (badSeries 5 3) (1 / 10) 2 =
      [⟨"X", "Y", "VRZ High Failure", 3⟩] :=
  ⟨⟨by decide, by decide⟩, badSeries_detect 5 3⟩

/-- C9 amended: the analysis performs no input validation at all: for
every pair of out-of-order timestamps the malformed negative-volume
series is processed by the ordinary band computation and yields a
failure event (timestamped by the out-of-order bar) instead of being
rejected. -/
theorem malformed_input_processed (t0 t1 : ℤ) (hts : t1 < t0) :
    ((barAt (badSeries t0 t1) 0).volume < 0 ∧
      (barAt (badSeries t0 t1) 1).date < (barAt (badSeries t0 t1) 0).date) ∧
    detectBandFailures "X" "Y" (badSeries t0 t1) (1 / 10) 2 =
      [⟨"X", "Y", "VRZ High Failure", t1⟩] :=
  ⟨⟨by norm_num [badSeries, barAt], hts⟩, badSeries_detect t0 t1⟩

/-- witness for `malformed_input_processed`. -/
theorem malformed_input_processed_witness :
    (3 : ℤ) < 7 ∧
      (((barAt (badSeries 7 3) 0).volume < 0 ∧
        (barAt (badSeries 7 3) 1).date < (barAt (badSeries 7 3) 0).date) ∧
      detectBandFailures "X" "Y" (badSeries 7 3) (1 / 10) 2 =
        [⟨"X", "Y", "VRZ High Failure", 3⟩]) :=
  ⟨by decide, malformed_input_processed 7 3 (by decide)⟩

/-- strictly rising two-bar series (all four price fields rise, volume
constant 1) on which the detector nevertheless emits a lower-band
failure at `k = 1/10`. -/
def risingSeries : List Bar := [⟨0, 0, 60, 0, 0, 1⟩, ⟨1, 99, 101, 99, 100, 1⟩]

/-- C8 counterexample: a strictly monotonically rising price series
with constant positive volume on which the detector emits a lower-band
("VRZ Low Failure") event, because the first bar's wide range drags the
band envelope above the early closes when `k < 1/3`. -/
theorem rising_series_lower_event_exists :
    ((∀ b ∈ risingSeries, b.low ≤ b.close ∧ b.close ≤ b.high) ∧
      (barAt risingSeries 0).op < (barAt risingSeries 1).op ∧
      (barAt risingSeries 0).high < (barAt risingSeries 1).high ∧
      (barAt risingSeries 0).low < (barAt risingSeries 1).low ∧
      (barAt risingSeries 0).close < (barAt risingSeries 1).close ∧
      (barAt risingSeries 0).volume = 1 ∧ (barAt risingSeries 1).volume = 1) ∧
    detectBandFailures "X" "Y" risingSeries (1 / 10) 20 =
      [⟨"X", "Y", "VRZ Low Failure", 1⟩] := by
  constructor
  · exact ⟨by decide, by decide, by decide, by decide, by decide, by decide, by decide⟩
  · have hu0 : upperBand risingSeries (1 / 10) 20 0 = some 26 := by
      norm_num [upperBand, vwap, cumVol, cumPV, typical, rangeAvg, rollingMean, barAt,
        risingSeries, Finset.sum_range_succ, Finset.sum_range_zero, ← Finset.range_eq_Ico]
    have hl0 : lowerBand risingSeries (1 / 10) 20 0 = some 14 := by
      norm_num [lowerBand, vwap, cumVol, cumPV, typical, rangeAvg, rollingMean, barAt,
        risingSeries, Finset.sum_range_succ, Finset.sum_range_zero, ← Finset.range_eq_Ico]
    have hl1 : lowerBand risingSeries (1 / 10) 20 1 = some (569 / 10) := by
      norm_num [lowerBand, vwap, cumVol, cumPV, typical, rangeAvg, rollingMean, barAt,
        risingSeries, Finset.sum_range_succ, Finset.sum_range_zero, ← Finset.range_eq_Ico]
    have hlen : risingSeries.length - 1 = 1 := rfl
    rw [detectBandFailures, hlen, show List.range' 1 1 = [1] from rfl, filterMap_two, bandStep,
      hu0, hl0, hl1]
    norm_num [gtO, ltO, barAt, risingSeries]

/-- constant volume makes the cumulative volume `(i+1) * v`. -/
lemma cumVol_const {s : List Bar} {v : ℚ} (i : ℕ)
    (hvol : ∀ b ∈ s, b.volume = v) (hi : i < s.length) :
    cumVol s i = ((i + 1 : ℕ) : ℚ) * v := by
  rw [cumVol,
    Finset.sum_congr rfl (fun j hj =>
      hvol _ (barAt_mem (lt_of_lt_of_le (Finset.mem_range.mp hj) hi))),
    Finset.sum_const, Finset.card_range, nsmul_eq_mul]

/-- core estimate behind the amended monotonicity property: on a series
with non-decreasing highs and closes, bar invariant `low ≤ close ≤
high`, constant positive volume, window `w ≥ 1` and `k ≥ 1/3`, the
lower band never rises above the close: the VWAP's excess over the
current close is at most a third of the trailing mean range, which the
`k`-scaled range average dominates. -/
lemma lowerVal_le_close {s : List Bar} {k v : ℚ} {w : ℕ} (i : ℕ)
    (hvol : ∀ b ∈ s, b.volume = v) (hvpos : 0 < v)
    (hlc : ∀ b ∈ s, b.low ≤ b.close) (hch : ∀ b ∈ s, b.close ≤ b.high)
    (hcm : ∀ j, j < s.length → ∀ i, i ≤ j → (barAt s i).close ≤ (barAt s j).close)
    (hhm : ∀ j, j < s.length → ∀ i, i ≤ j → (barAt s i).high ≤ (barAt s j).high)
    (hk : 1 / 3 ≤ k) (hw : 1 ≤ w) (hi : i < s.length) :
    lowerVal s k w i ≤ (barAt s i).close := by
  set lo : ℕ := i + 1 - w with hlo
  have hlole : lo ≤ i + 1 := by omega
  set NQ : ℚ := ((i + 1 : ℕ) : ℚ) with hNQdef
  set MQ : ℚ := (((i + 1) - lo : ℕ) : ℚ) with hMQdef
  have hNQ : (0 : ℚ) < NQ := by rw [hNQdef]; exact_mod_cast Nat.succ_pos i
  have hMQ : (0 : ℚ) < MQ := by rw [hMQdef]; exact_mod_cast (by omega : 0 < (i + 1) - lo)
  set C : ℚ := (barAt s i).close with hC
  set SA : ℚ := ∑ j ∈ Finset.range (i + 1), (barAt s j).high with hSA
  set SAtp : ℚ := ∑ j ∈ Finset.range (i + 1), typical (barAt s j) with hSAtp
  set ST : ℚ := ∑ j ∈ Finset.Ico lo (i + 1), (barAt s j).high with hST
  set SR : ℚ := ∑ j ∈ Finset.Ico lo (i + 1), ((barAt s j).high - (barAt s j).low) with hSR
  have hmemlen : ∀ j, j < i + 1 → j < s.length := fun j hj => lt_of_lt_of_le hj hi
  -- 1. VWAP is the plain mean of typical prices
  have hvwap : vwapVal s i = SAtp / NQ := by
    have h1 : cumPV s i = v * SAtp := by
      rw [cumPV,
        Finset.sum_congr rfl (fun j hj => by
          rw [hvol _ (barAt_mem (hmemlen j (Finset.mem_range.mp hj)))]),
        hSAtp, Finset.mul_sum]
    have h2 : cumVol s i = NQ * v := cumVol_const i hvol hi
    rw [vwapVal, h1, h2, mul_comm v SAtp, mul_div_mul_right _ _ (ne_of_gt hvpos)]
  -- 2. each typical price is at most (high + 2*close_i)/3
  have hstep1 : SAtp ≤ (SA + 2 * NQ * C) / 3 := by
    have hb : ∀ j ∈ Finset.range (i + 1),
        typical (barAt s j) ≤ ((barAt s j).high + 2 * C) / 3 := by
      intro j hj
      have hjlen : j < s.length := hmemlen j (Finset.mem_range.mp hj)
      have h1 := hlc _ (barAt_mem hjlen)
      have h2 := hcm i hi j (Nat.lt_succ_iff.mp (Finset.mem_range.mp hj))
      rw [typical]
      linarith [hC, h1, h2]
    calc SAtp ≤ ∑ j ∈ Finset.range (i + 1), (((barAt s j).high + 2 * C) / 3) :=
        Finset.sum_le_sum hb
      _ = (SA + 2 * NQ * C) / 3 := by
        rw [← Finset.sum_div, Finset.sum_add_distrib, Finset.sum_const, Finset.card_range,
          nsmul_eq_mul, hSA, hNQdef]
        ring
  -- 3. the mean of all highs is at most the mean of the trailing highs
  have hstep2 : SA * MQ ≤ ST * NQ := by
    have hsplit : (∑ j ∈ Finset.Ico 0 lo, (barAt s j).high) + ST = SA := by
      rw [hST, hSA, Finset.range_eq_Ico]
      exact Finset.sum_Ico_consecutive _ (Nat.zero_le lo) hlole
    have hbar : ∀ m ∈ Finset.Ico 0 lo, (barAt s m).high * MQ ≤ ST := by
      intro m hm
      rcases Finset.mem_Ico.mp hm with ⟨_, hm2⟩
      have h1 : ∀ j ∈ Finset.Ico lo (i + 1), (barAt s m).high ≤ (barAt s j).high := by
        intro j hj
        rcases Finset.mem_Ico.mp hj with ⟨hj1, hj2⟩
        exact hhm j (hmemlen j hj2) m (by omega)
      calc (barAt s m).high * MQ
          = ∑ _j ∈ Finset.Ico lo (i + 1), (barAt s m).high := by
            rw [Finset.sum_const, Nat.card_Ico, nsmul_eq_mul, hMQdef]
            ring
        _ ≤ ST := Finset.sum_le_sum h1
    have hpre : (∑ j ∈ Finset.Ico 0 lo, (barAt s j).high) * MQ ≤ ((lo : ℕ) : ℚ) * ST := by
      calc (∑ j ∈ Finset.Ico 0 lo, (barAt s j).high) * MQ
          = ∑ j ∈ Finset.Ico 0 lo, (barAt s j).high * MQ := Finset.sum_mul _ _ _
        _ ≤ ∑ _j ∈ Finset.Ico 0 lo, ST := Finset.sum_le_sum hbar
        _ = ((lo : ℕ) : ℚ) * ST := by
            rw [Finset.sum_const, Nat.card_Ico, Nat.sub_zero, nsmul_eq_mul]
    have hcast : ((lo : ℕ) : ℚ) + MQ = NQ := by
      rw [hMQdef, hNQdef]
      push_cast [Nat.cast_sub hlole]
      ring
    have hexp : SA * MQ = (∑ j ∈ Finset.Ico 0 lo, (barAt s j).high) * MQ + ST * MQ := by
      rw [← hsplit]
      ring
    have hfin : ((lo : ℕ) : ℚ) * ST + MQ * ST = NQ * ST := by
      rw [← hcast]
      ring
    linarith [hpre, hexp, hfin]
  -- 4. the trailing mean range dominates the trailing high excess
  have hstep3 : ST ≤ MQ * C + SR := by
    have hb : ∀ j ∈ Finset.Ico lo (i + 1), (barAt s j).high - C ≤
        (barAt s j).high - (barAt s j).low := by
      intro j hj
      rcases Finset.mem_Ico.mp hj with ⟨_, hj2⟩
      have hjlen : j < s.length := hmemlen j hj2
      have h1 := hlc _ (barAt_mem hjlen)
      have h2 := hcm i hi j (by omega)
      linarith [hC, h1, h2]
    have hsum := Finset.sum_le_sum hb
    rw [Finset.sum_sub_distrib, Finset.sum_const, Nat.card_Ico, nsmul_eq_mul,
      ← hMQdef, ← hST, ← hSR] at hsum
    linarith [hsum]
  -- 5. ranges are non-negative
  have hSRnn : (0 : ℚ) ≤ SR := by
    rw [hSR]
    apply Finset.sum_nonneg
    intro j hj
    rcases Finset.mem_Ico.mp hj with ⟨_, hj2⟩
    have hjlen : j < s.length := hmemlen j hj2
    have h1 := hlc _ (barAt_mem hjlen)
    have h2 := hch _ (barAt_mem hjlen)
    linarith
  -- 6. combine
  have key : SAtp * MQ ≤ C * (NQ * MQ) + k * (SR * NQ) := by
    have p1 : SAtp * MQ ≤ ((SA + 2 * NQ * C) / 3) * MQ :=
      mul_le_mul_of_nonneg_right hstep1 hMQ.le
    have p3 : ST * NQ ≤ (MQ * C + SR) * NQ :=
      mul_le_mul_of_nonneg_right hstep3 hNQ.le
    have p4 : (1 / 3) * (SR * NQ) ≤ k * (SR * NQ) :=
      mul_le_mul_of_nonneg_right hk (mul_nonneg hSRnn hNQ.le)
    nlinarith [p1, hstep2, p3, p4]
  have hid : lowerVal s k w i = (SAtp * MQ - k * (SR * NQ)) / (NQ * MQ) := by
    rw [lowerVal, hvwap, rangeAvg, rollingMean]
    rw [show (∑ j ∈ Finset.Ico (i + 1 - w) (i + 1),
        ((barAt s j).high - (barAt s j).low)) = SR from by rw [hSR, hlo]]
    rw [show ((((i + 1) - (i + 1 - w) : ℕ)) : ℚ) = MQ from by rw [hMQdef, hlo]]
    field_simp
    ring
  rw [hid, div_le_iff (by positivity)]
  linarith [key]

/-- C8 amended: for a rising price series (non-decreasing closes and
highs — in particular any strictly monotonically rising series) with
the bar invariant `low ≤ close ≤ high`, constant positive volume, and
band multiplier `k ≥ 1/3`, the detector never emits a lower-band
("VRZ Low Failure") event; the counterexample shows the restriction on
`k` is necessary. -/
theorem rising_series_no_lower_failure (c t : String) (s : List Bar) (k v : ℚ) (w : ℕ)
    (hvol : ∀ b ∈ s, b.volume = v) (hvpos : 0 < v)
    (hlc : ∀ b ∈ s, b.low ≤ b.close) (hch : ∀ b ∈ s, b.close ≤ b.high)
    (hcm : ∀ j, j < s.length → ∀ i, i ≤ j → (barAt s i).close ≤ (barAt s j).close)
    (hhm : ∀ j, j < s.length → ∀ i, i ≤ j → (barAt s i).high ≤ (barAt s j).high)
    (hk : 1 / 3 ≤ k) (hw : 1 ≤ w) :
    ∀ e ∈ detectBandFailures c t s k w, e.location ≠ "VRZ Low Failure" := by
  intro e he
  rw [detectBandFailures, List.mem_filterMap] at he
  rcases he with ⟨i, hi, hstep⟩
  rcases List.mem_range'_1.mp hi with ⟨h1, h2⟩
  have hilen : i < s.length := by omega
  have hprev : i - 1 < s.length := by omega
  have hcv : cumVol s (i - 1) ≠ 0 := by
    rw [cumVol_const (i - 1) hvol hprev]
    exact mul_ne_zero (by exact_mod_cast Nat.succ_ne_zero (i - 1)) (ne_of_gt hvpos)
  have hlband : lowerBand s k w (i - 1) = some (lowerVal s k w (i - 1)) := by
    rw [lowerBand, vwap, if_neg hcv]
    rfl
  have hnotlt : ¬ ((barAt s (i - 1)).close < lowerVal s k w (i - 1)) :=
    not_lt.mpr (lowerVal_le_close (i - 1) hvol hvpos hlc hch hcm hhm hk hw hprev)
  rw [bandStep] at hstep
  split at hstep
  · cases hstep
    show "VRZ High Failure" ≠ "VRZ Low Failure"
    decide
  · split at hstep
    · rename_i hcond
      rw [hlband] at hcond
      simp only [ltO, Bool.and_eq_true, decide_eq_true_eq] at hcond
      exact absurd hcond.1 hnotlt
    · cases hstep

/-- concrete rising series for the C8 witness. -/
def sampleRising : List Bar := [⟨0, 1, 2, 1, 2, 1⟩, ⟨1, 2, 3, 2, 3, 1⟩]

/-- witness for `rising_series_no_lower_failure` at the default-like
parameters `k = 2`, `w = 20`. -/
theorem rising_series_no_lower_failure_witness :
    ((∀ b ∈ sampleRising, b.volume = 1) ∧ (0 : ℚ) < 1 ∧
      (∀ b ∈ sampleRising, b.low ≤ b.close) ∧ (∀ b ∈ sampleRising, b.close ≤ b.high) ∧
      (∀ j, j < sampleRising.length → ∀ i, i ≤ j →
        (barAt sampleRising i).close ≤ (barAt sampleRising j).close) ∧
      (∀ j, j < sampleRising.length → ∀ i, i ≤ j →
        (barAt sampleRising i).high ≤ (barAt sampleRising j).high) ∧
      (1 : ℚ) / 3 ≤ 2 ∧ 1 ≤ 20) ∧
      ∀ e ∈ detectBandFailures "X" "Y" sampleRising 2 20, e.location ≠ "VRZ Low Failure" :=
  ⟨⟨by decide, by decide, by decide, by decide, by decide, by decide, by norm_num, by decide⟩,
    rising_series_no_lower_failure "X" "Y" sampleRising 2 1 20 (by decide) (by decide)
      (by decide) (by decide) (by decide) (by decide) (by norm_num) (by decide)⟩
